import Mathlib

/-!
Verification of the `compress_picture_to70` batch image pipeline.

The development shallowly embeds the repository's Python modules:
  * `utils.py`            — file discovery (`collect_files`), size parsing
                            (`parse_size_to_bytes`), and the result-aggregation
                            fold of `run_pipeline`;
  * `compress_images.py`  — the per-file quality-recompression transform
                            `compress_image`;
  * `images_to_webp.py`   — the per-file WebP conversion `convert_to_webp`.

Paths are modelled as a directory component list plus a file name (a list of
characters); `pathlib`'s `stem` / `suffix` / `with_suffix` are embedded by
their CPython split-at-last-dot rule.  The filesystem is an association list
from paths to file data, and the imaging library (an external collaborator in
the spec) is an oracle environment `Env` that decides whether `Image.open`,
`img.save`, `mkdir` and `rename` succeed and what size the encoded output has;
a failing `save` leaves a non-intact (partially written) file behind, which is
exactly the behaviour the temp-file protocol is meant to contain.
-/

set_option linter.unusedVariables false
set_option autoImplicit false
set_option linter.unnecessarySeqFocus false

/-! ### Characters and the pathlib name split -/

/-- Model of `part.lower()` on a character list (ASCII case folding, as in the
extension comparisons of the Python source). -/
def lowerL (l : List Char) : List Char := l.map Char.toLower

/-- CPython `pathlib` splits `name` into `(stem, suffix)` at the last dot,
provided that dot is neither the first nor the last character of the name;
otherwise the suffix is empty. -/
def splitName (name : List Char) : List Char × List Char :=
  let r := name.reverse
  let extRev := r.takeWhile (fun c => c != '.')
  match r.dropWhile (fun c => c != '.') with
  | [] => (name, [])
  | c :: stemRev =>
    if extRev.isEmpty then (name, [])
    else if stemRev.isEmpty then (name, [])
    else (stemRev.reverse, c :: extRev.reverse)

/-- Embeds `Path(...).stem`. -/
def stem (name : List Char) : List Char := (splitName name).1

/-- Embeds `Path(...).suffix`. -/
def sfx (name : List Char) : List Char := (splitName name).2

/-- Embeds `Path(...).with_suffix(new)` — drop the current suffix, append `new`. -/
def with_suffix (name newSfx : List Char) : List Char := stem name ++ newSfx

/-! ### Paths and the filesystem state -/

/-- A filesystem path: directory components plus the final file name. -/
structure PyPath where
  dir : List String
  name : List Char
deriving DecidableEq, Repr

/-- Rendering of a path for messages. -/
def pathStr (p : PyPath) : String :=
  String.intercalate "/" (p.dir ++ [String.mk p.name])

/-- Renders `p.name` as a string (Python `filepath.name`). -/
def nameStr (p : PyPath) : String := String.mk p.name

/-- The content a path maps to: a byte size, and whether the write that
produced it ran to completion (`intact = false` models a partially written
file left behind by an interrupted encode). -/
structure FileData where
  size : Nat
  intact : Bool
deriving DecidableEq, Repr

/-- Filesystem state: an association list from paths to file data. -/
abbrev Fs := List (PyPath × FileData)

def fsGet : Fs → PyPath → Option FileData
  | [], _ => none
  | (q, d) :: rest, p => if q = p then some d else fsGet rest p

def fsDel : Fs → PyPath → Fs
  | [], _ => []
  | (q, d) :: rest, p => if q = p then fsDel rest p else (q, d) :: fsDel rest p

def fsSet (fs : Fs) (p : PyPath) (d : FileData) : Fs := (p, d) :: fsDel fs p

def fsExists (fs : Fs) (p : PyPath) : Bool := (fsGet fs p).isSome

/-! ### The per-file outcome record and the imaging-library oracle -/

/-- Record `FileResult` from `utils.py` (the two scripts return the same shape as a
tuple `(status, message, original_size, new_size)`). -/
structure FileResult where
  status : String
  message : String
  original_size : Nat
  new_size : Nat
deriving DecidableEq, Repr

/-- Oracle for the external imaging library and OS calls: which of the
fallible steps succeed, the error text they raise with, and the byte size of
the encoded output.  `truncSize` is the size of the partial file a failing
`img.save` leaves behind. -/
structure Env where
  openOk : Bool
  openErr : String
  saveOk : Bool
  saveErr : String
  encodedSize : Nat
  truncSize : Nat
  renameOk : Bool
  renameErr : String
  mkdirOk : Bool
  mkdirErr : String
deriving DecidableEq, Repr

/-- The `except Exception` message of both transforms:
`f"✗ 處理失敗 {filepath}: {e}"`. -/
def failMsg (p : PyPath) (e : String) : String :=
  "✗ 處理失敗 " ++ pathStr p ++ ": " ++ e

namespace CompressImages

/-- Set `SUPPORTED_FORMATS` of `compress_images.py`. -/
def SUPPORTED_FORMATS : List (List Char) :=
  [".jpg".toList, ".jpeg".toList, ".png".toList, ".webp".toList, ".bmp".toList]

/-- Embeds `COMPRESSED_SUFFIX_PATTERN.search(stem)`: does the stem end in
`_<digits>%` (the regex `_\d+%$`, any digit sequence)? -/
def stemHasTag (st : List Char) : Bool :=
  match st.reverse with
  | [] => false
  | c :: rest =>
    c = '%' && !(rest.takeWhile Char.isDigit).isEmpty &&
      (rest.dropWhile Char.isDigit).head? = some '_'

/-- Embeds `f"_{quality}%"`. -/
def qualTag (quality : Nat) : List Char := '_' :: (toString quality).toList ++ ['%']

/-- Embeds `new_name = f"{filepath.stem}_{quality}%{filepath.suffix}"`. -/
def newNameOf (quality : Nat) (name : List Char) : List Char :=
  stem name ++ qualTag quality ++ sfx name

/-- Embeds `new_path = filepath.parent / new_name`. -/
def targetPath (quality : Nat) (p : PyPath) : PyPath :=
  ⟨p.dir, newNameOf quality p.name⟩

/-- Embeds `temp_path = new_path.with_suffix('.tmp')`. -/
def tempPath (quality : Nat) (p : PyPath) : PyPath :=
  ⟨p.dir, with_suffix (newNameOf quality p.name) ".tmp".toList⟩

/-- The body of `compress_image` from `compress_images.py`, with the
`try`/`except` boundary embedded: every fallible step either continues or
produces the `failed` outcome, and the filesystem state reached so far is
kept (Python exceptions do not roll back completed I/O). -/
def compress_image (env : Env) (fs : Fs) (filepath : PyPath) (quality : Nat)
    (overwrite keep_exif dry_run : Bool) : FileResult × Fs :=
  if stemHasTag (stem filepath.name) then
    (⟨"skipped", "跳過已壓縮: " ++ nameStr filepath, 0, 0⟩, fs)
  else
    let new_path := targetPath quality filepath
    if fsExists fs new_path && !overwrite then
      (⟨"skipped", "檔案已存在(跳過): " ++ String.mk new_path.name, 0, 0⟩, fs)
    else
      match fsGet fs filepath with
      | none => (⟨"failed", failMsg filepath "stat: No such file or directory", 0, 0⟩, fs)
      | some fd =>
        let original_size := fd.size
        if dry_run then
          (⟨"dry_run",
            "[預覽] " ++ nameStr filepath ++ " -> " ++ String.mk new_path.name, 0, 0⟩, fs)
        else if !env.openOk then
          (⟨"failed", failMsg filepath env.openErr, 0, 0⟩, fs)
        else
          let temp_path := tempPath quality filepath
          if !env.saveOk then
            (⟨"failed", failMsg filepath env.saveErr, 0, 0⟩,
             fsSet fs temp_path ⟨env.truncSize, false⟩)
          else
            let fs1 := fsSet fs temp_path ⟨env.encodedSize, true⟩
            let new_size := env.encodedSize
            if new_size ≥ original_size then
              (⟨"size_skip", "壓縮後變大，跳過: " ++ nameStr filepath, 0, 0⟩,
               fsDel fs1 temp_path)
            else
              let fs2 := if fsExists fs1 new_path then fsDel fs1 new_path else fs1
              if !env.renameOk then
                (⟨"failed", failMsg filepath env.renameErr, 0, 0⟩, fs2)
              else
                (⟨"success",
                  "✓ " ++ nameStr filepath ++ " -> " ++ String.mk new_path.name,
                  original_size, new_size⟩,
                 fsSet (fsDel fs2 temp_path) new_path ⟨env.encodedSize, true⟩)

end CompressImages

namespace ImagesToWebp

/-- Set `SUPPORTED_FORMATS` of `images_to_webp.py` (input formats). -/
def SUPPORTED_FORMATS : List (List Char) :=
  [".jpg".toList, ".jpeg".toList, ".png".toList, ".bmp".toList]

/-- Embeds `filepath.relative_to(root_dir)`, falling back to `Path(filepath.name)`
when the file is not under the root (the `except ValueError` branch). -/
def relTo (p : PyPath) (root : List String) : PyPath :=
  if p.dir.take root.length = root then ⟨p.dir.drop root.length, p.name⟩
  else ⟨[], p.name⟩

/-- Embeds `target_path = root_dir / 'webpimage' / rel_path.with_suffix('.webp')`. -/
def webpTarget (root : List String) (p : PyPath) : PyPath :=
  let rel := relTo p root
  ⟨root ++ ["webpimage"] ++ rel.dir, with_suffix rel.name ".webp".toList⟩

/-- The body of `convert_to_webp` from `images_to_webp.py`, `try`/`except`
boundary embedded as in `compress_image`.  Note: `img.save` writes directly
to `target_path` — there is no temporary file and no rename here. -/
def convert_to_webp (env : Env) (fs : Fs) (filepath : PyPath) (root_dir : List String)
    (quality : Nat) (overwrite dry_run : Bool) : FileResult × Fs :=
  let target_path := webpTarget root_dir filepath
  if fsExists fs target_path && !overwrite then
    (⟨"skipped", "檔案已存在(跳過): " ++ String.mk target_path.name, 0, 0⟩, fs)
  else
    match fsGet fs filepath with
    | none => (⟨"failed", failMsg filepath "stat: No such file or directory", 0, 0⟩, fs)
    | some fd =>
      let original_size := fd.size
      if dry_run then
        (⟨"dry_run", "[預覽] " ++ nameStr filepath ++ " -> "
            ++ String.mk (relTo filepath root_dir |>.name), 0, 0⟩, fs)
      else if !env.mkdirOk then
        (⟨"failed", failMsg filepath env.mkdirErr, 0, 0⟩, fs)
      else if !env.openOk then
        (⟨"failed", failMsg filepath env.openErr, 0, 0⟩, fs)
      else if !env.saveOk then
        (⟨"failed", failMsg filepath env.saveErr, 0, 0⟩,
         fsSet fs target_path ⟨env.truncSize, false⟩)
      else
        let fs1 := fsSet fs target_path ⟨env.encodedSize, true⟩
        let new_size := env.encodedSize
        (⟨"success",
          "✓ " ++ nameStr filepath ++ " -> " ++ String.mk target_path.name,
          original_size, new_size⟩, fs1)

end ImagesToWebp

namespace Utils

/-! ### `collect_files` from `utils.py` -/

/-- One entry of the `directory.rglob('*')` listing, described relative to the
scanned root: its relative-path components (the last one is the file name),
whether it is a regular file, and the result of `stat().st_size` (`none` when
the size cannot be read). -/
structure Entry where
  parts : List String
  isFile : Bool
  sz : Option Nat
deriving DecidableEq, Repr

/-- Python `str.startswith`, by character-list comparison. -/
def startswith (s : String) (pre : List Char) : Bool :=
  decide (s.toList.take pre.length = pre)

/-- Predicate `is_ignored` from `collect_files`: component starts with `.` or `__`, or
is a member of `exclude_dirs`. -/
def is_ignored (exclude_dirs : List String) (part : String) : Bool :=
  startswith part ['.'] || startswith part ['_', '_'] || exclude_dirs.contains part

/-- Suffix `f.suffix` of the full path is the suffix of its final component. -/
def entrySuffix (f : Entry) : List Char := sfx (f.parts.getLastD "").toList

/-- The body of the `for f in directory.rglob('*')` loop: `True` when none of
the `continue` branches fires, i.e. the file is appended to the result. -/
def keepFile (supported : List (List Char)) (exclude_dirs : List String)
    (max_depth min_size_bytes max_size_bytes : Option Nat) (f : Entry) : Bool :=
  f.isFile &&
  (match max_depth with
   | some d => decide (f.parts.length - 1 ≤ d)
   | none => true) &&
  !(f.parts.any (is_ignored exclude_dirs)) &&
  supported.contains (lowerL (entrySuffix f)) &&
  (match f.sz with
   | none => false
   | some s =>
     (match min_size_bytes with | some m => decide (m ≤ s) | none => true) &&
     (match max_size_bytes with | some m => decide (s ≤ m) | none => true))

/-- Embeds `collect_files` over a listing of the directory tree. -/
def collect_files (entries : List Entry) (supported : List (List Char))
    (exclude_dirs : List String)
    (max_depth min_size_bytes max_size_bytes : Option Nat) : List Entry :=
  entries.filter (keepFile supported exclude_dirs max_depth min_size_bytes max_size_bytes)

/-! ### The aggregation fold of `run_pipeline` -/

/-- Record `ProcessingSummary` from `utils.py`. -/
structure ProcessingSummary where
  success : Nat
  skipped : Nat
  failed : Nat
  size_skip : Nat
  total_original : Nat
  total_new : Nat
deriving DecidableEq, Repr

/-- Embeds `ProcessingSummary()` — all counters zero. -/
def initSummary : ProcessingSummary := ⟨0, 0, 0, 0, 0, 0⟩

/-- The per-outcome statistics update in `run_pipeline`'s `as_completed`
loop. -/
def applyResult (s : ProcessingSummary) (r : FileResult) : ProcessingSummary :=
  if r.status = "success" then
    { s with success := s.success + 1,
             total_original := s.total_original + r.original_size,
             total_new := s.total_new + r.new_size }
  else if r.status = "skipped" ∨ r.status = "dry_run" then
    { s with skipped := s.skipped + 1 }
  else if r.status = "size_skip" then
    { s with size_skip := s.size_skip + 1 }
  else
    { s with failed := s.failed + 1 }

/-- The whole aggregation: fold the outcome stream into the summary. -/
def aggregate (rs : List FileResult) : ProcessingSummary :=
  rs.foldl applyResult initSummary

/-- Sum of the four status counters (each outcome must bump exactly one). -/
def counterSum (s : ProcessingSummary) : Nat :=
  s.success + s.skipped + s.failed + s.size_skip

/-! ### `parse_size_to_bytes` from `utils.py` -/

/-- The character class `[\d.]` of the size regex. -/
def isNumChar (c : Char) : Bool := c.isDigit || c = '.'

/-- Python `str.strip()` (whitespace from both ends). -/
def pyStrip (s : List Char) : List Char :=
  ((s.dropWhile Char.isWhitespace).reverse.dropWhile Char.isWhitespace).reverse

/-- Embeds `re.match(r'^([\d\.]+)\s*([a-zA-Z]*)$', s)`: the number part and the unit
part, or `none` when the pattern does not match. -/
def matchSizeRe (s : List Char) : Option (List Char × List Char) :=
  let num := s.takeWhile isNumChar
  let unit := (s.dropWhile isNumChar).dropWhile Char.isWhitespace
  if !num.isEmpty && unit.all Char.isAlpha then some (num, unit) else none

/-- Value of a digit string (the exact value the decimal text denotes). -/
def digitsVal (ds : List Char) : Nat :=
  ds.foldl (fun a c => a * 10 + (c.toNat - 48)) 0

/-- A CPython `float`: a binary64 value kept as a mantissa times a power of
two (`m * 2 ^ exp`), or the infinity that overlarge magnitudes overflow to.
Only non-negative values arise here — the size regex admits no sign. -/
inductive PyFloat where
  | finite (m : Nat) (exp : Int)
  | inf
deriving DecidableEq, Repr

/-- Fuelled floor of the binary logarithm. -/
def log2fuel : Nat → Nat → Nat
  | 0, _ => 0
  | f + 1, n => if 2 ≤ n then log2fuel f (n / 2) + 1 else 0

/-- Floor of log₂ on naturals.  The fuel `4200` makes it exact for every
value below `2 ^ 4200` (about `10 ^ 1264`); anything larger saturates and
lands on the overflow-to-infinity path of `roundDyadic` in any case. -/
def natLog2 (n : Nat) : Nat := log2fuel 4200 n

/-- Does `2 ^ e ≤ p / q` hold?  (Integer form; `q > 0`.) -/
def dyLe (e : Int) (p q : Nat) : Bool :=
  if 0 ≤ e then 2 ^ e.toNat * q ≤ p else q ≤ p * 2 ^ (-e).toNat

/-- Floor of log₂ of the positive rational `p / q`. -/
def dlog2 (p q : Nat) : Int :=
  let e0 : Int := (natLog2 p : Int) - (natLog2 q : Int)
  if dyLe e0 p q then e0 else e0 - 1

/-- Rounds the non-negative rational `p / q` (`q > 0`) to binary64: round to
nearest with ties to even at 53 significant bits, the exponent clamped to
the subnormal floor `2 ^ (-1074)`, and magnitudes reaching `2 ^ 1024`
overflowing to infinity.  This is the value CPython's `float()` yields for
the exact decimal `p / q` (IEEE 754 `roundTiesToEven`). -/
def roundDyadic (p q : Nat) : PyFloat :=
  if p = 0 then .finite 0 0
  else
    let e := dlog2 p q
    let shift : Int := max (e - 52) (-1074)
    let N := if 0 ≤ shift then p else p * 2 ^ (-shift).toNat
    let D := if 0 ≤ shift then q * 2 ^ shift.toNat else q
    let m0 := N / D
    let r := N % D
    let m := if 2 * r < D then m0
             else if D < 2 * r then m0 + 1
             else if m0 % 2 = 0 then m0 else m0 + 1
    if 0 ≤ shift && 2 ^ 1024 ≤ m * 2 ^ shift.toNat then .inf else .finite m shift

/-- Binary64 multiplication by the power-of-two unit constant `2 ^ k` (the
code's `1024 = 2 ^ 10`, `1024 * 1024 = 2 ^ 20`, `1024 * 1024 * 1024 =
2 ^ 30`): scaling a binary float by a power of two moves only the exponent,
so the product is exact unless it overflows to infinity. -/
def pyMulPow2 (x : PyFloat) (k : Nat) : PyFloat :=
  match x with
  | .inf => .inf
  | .finite m exp =>
    if 0 ≤ exp + k && 2 ^ 1024 ≤ m * 2 ^ (exp + k).toNat then .inf
    else .finite m (exp + k)

/-- Python `int()` on a float: truncation (our values are non-negative, so
floor); an infinite argument raises `OverflowError`, modelled `none`. -/
def pyToInt (x : PyFloat) : Option Int :=
  match x with
  | .inf => none
  | .finite m exp =>
    if 0 ≤ exp then some ((m * 2 ^ exp.toNat : Nat) : Int)
    else some ((m / 2 ^ (-exp).toNat : Nat) : Int)

/-- Lifts `int(...)` into the parser's result type: the `OverflowError` of
`int()` on infinity is uncaught, hence abnormal termination. -/
def intResult (x : PyFloat) : Option (Option Int) :=
  match pyToInt x with
  | none => none
  | some z => some (some z)

/-- Embeds Python `float(group(1))` on a `[\d.]+` string: the exact decimal
value `a.b = (a * 10 ^ |b| + b) / 10 ^ |b|` correctly rounded to binary64 by
`roundDyadic`; `none` models the `ValueError` that `float()` raises on
inputs such as `"."` or `"1.2.3"` (uncaught in the source). -/
def parseDecimal (num : List Char) : Option PyFloat :=
  let a := num.takeWhile (fun c => c != '.')
  match num.dropWhile (fun c => c != '.') with
  | [] =>
    if a.all Char.isDigit && !a.isEmpty then some (roundDyadic (digitsVal a) 1)
    else none
  | _ :: b =>
    if a.all Char.isDigit && b.all Char.isDigit && !(b.contains '.') &&
        (!a.isEmpty || !b.isEmpty) then
      some (roundDyadic (digitsVal a * 10 ^ b.length + digitsVal b) (10 ^ b.length))
    else none

/-- Embeds `parse_size_to_bytes`.  The outer `Option` is normal return vs
abnormal termination (`exit(1)` on a bad pattern or unknown unit, or an
uncaught `ValueError`/`OverflowError` from the float conversion); the inner
`Option` is the function's own `None`-for-absent result.  `int(number *
1024)` and friends are binary64 products with power-of-two constants, hence
exact up to overflow (`pyMulPow2`). -/
def parse_size_to_bytes (size_str : Option String) : Option (Option Int) :=
  match size_str with
  | none => some none
  | some s =>
    if s.isEmpty then some none
    else
      match matchSizeRe (pyStrip s.toList) with
      | none => none
      | some (num, unitCs) =>
        match parseDecimal num with
        | none => none
        | some number =>
          let unit := unitCs.map Char.toUpper
          if unit = [] ∨ unit = "K".toList ∨ unit = "KB".toList then
            intResult (pyMulPow2 number 10)
          else if unit = "M".toList ∨ unit = "MB".toList then
            intResult (pyMulPow2 number 20)
          else if unit = "G".toList ∨ unit = "GB".toList then
            intResult (pyMulPow2 number 30)
          else if unit = "B".toList ∨ unit = "BYTE".toList ∨ unit = "BYTES".toList then
            intResult number
          else none

end Utils


/-! ### Concrete sample data used by witnesses and counterexamples -/

/-- Sample source file `photos/a.jpg`. -/
def srcJpg : PyPath := ⟨["photos"], "a.jpg".toList⟩

/-- A sibling differing only in its extension. -/
def srcPng : PyPath := ⟨["photos"], "a.png".toList⟩

/-- The §8 scenario's `c.bmp`. -/
def srcBmp : PyPath := ⟨["photos"], "c.bmp".toList⟩

/-- A file already carrying a quality tag (with a digit sequence different
from the configured quality). -/
def srcTagged : PyPath := ⟨["photos"], "b_70%.png".toList⟩

/-- Oracle in which every step succeeds and the encode shrinks the file. -/
def envOk : Env := ⟨true, "", true, "", 5000, 7, true, "", true, ""⟩

/-- Oracle in which every step succeeds but the encode grows the file. -/
def envBig : Env := ⟨true, "", true, "", 15000, 7, true, "", true, ""⟩

/-- Oracle in which `img.save` fails midway, leaving a 7-byte partial file. -/
def envSaveFail : Env := ⟨true, "", false, "[Errno 28] No space left on device", 5000, 7, true, "", true, ""⟩

/-- A depth-1 candidate entry: `sub/pic.jpg`, 5000 bytes. -/
def entryJpg : Utils.Entry := ⟨["sub", "pic.jpg"], true, some 5000⟩

/-- An entry whose own file name starts with a dot: `.photo.jpg`. -/
def entryHidden : Utils.Entry := ⟨[".photo.jpg"], true, some 5000⟩

/-- A concrete `success` outcome. -/
def resSuccess : FileResult := ⟨"success", "ok", 100, 40⟩

/-- A concrete `dry_run` (preview) outcome. -/
def resPreview : FileResult := ⟨"dry_run", "preview", 0, 0⟩

/-- A filesystem holding only the 10 KB source `a.jpg`. -/
def fsJpg : Fs := [(srcJpg, ⟨10240, true⟩)]

/-- A filesystem holding only the 10 KB source `c.bmp`. -/
def fsBmp : Fs := [(srcBmp, ⟨10240, true⟩)]

/-- Sample state: `a.jpg` plus a pre-existing 3 KB file at its derived target path. -/
def fsJpgWithTarget : Fs :=
  [(srcJpg, ⟨10240, true⟩), (⟨["photos"], "a_70%.jpg".toList⟩, ⟨3000, true⟩)]


/-! ## Lemmas and claim theorems -/

theorem fsGet_del_self (fs : Fs) (p : PyPath) : fsGet (fsDel fs p) p = none := by
  induction fs with
  | nil => rfl
  | cons e rest ih =>
    obtain ⟨q, d⟩ := e
    by_cases h : q = p <;> simp [fsDel, fsGet, h, ih]

theorem fsGet_del_ne (fs : Fs) (p q : PyPath) (h : p ≠ q) :
    fsGet (fsDel fs p) q = fsGet fs q := by
  induction fs with
  | nil => rfl
  | cons e rest ih =>
    obtain ⟨r, d⟩ := e
    by_cases hr : r = p
    · subst hr; simp [fsDel, fsGet, h, ih]
    · by_cases hq : r = q
      · subst hq
        simp [fsDel, fsGet, hr, Ne.symm h, ih]
      · simp [fsDel, fsGet, hr, hq, ih]

theorem fsGet_set_self (fs : Fs) (p : PyPath) (d : FileData) :
    fsGet (fsSet fs p d) p = some d := by
  simp [fsSet, fsGet]

theorem fsGet_set_ne (fs : Fs) (p q : PyPath) (d : FileData) (h : p ≠ q) :
    fsGet (fsSet fs p d) q = fsGet fs q := by
  simp [fsSet, fsGet, h, fsGet_del_ne fs p q h]

/-! ### Character and name-splitting lemmas -/

theorem toNat_ofNat_valid {m : Nat} (h : m.isValidChar) : (Char.ofNat m).toNat = m := by
  simp [Char.ofNat, h, Char.ofNatAux, Char.toNat, UInt32.toNat]

theorem toLower_eq_dot {c : Char} (h : c.toLower = '.') : c = '.' := by
  unfold Char.toLower at h
  simp only at h
  by_cases hc : c.toNat ≥ 65 ∧ c.toNat ≤ 90
  · rw [if_pos hc] at h
    exfalso
    have hv : (c.toNat + 32).isValidChar := by left; omega
    have h2 := congrArg Char.toNat h
    rw [toNat_ofNat_valid hv] at h2
    have h3 : ('.' : Char).toNat = 46 := by decide
    omega
  · rwa [if_neg hc] at h

/-- Inverting `lower()` on a list known to start with a dot and have no
further dot: the original has the same shape. -/
theorem shape_of_lower {e t : List Char} (h : lowerL e = '.' :: t) (hn : '.' ∉ t) :
    ∃ rest, e = '.' :: rest ∧ '.' ∉ rest ∧ rest.length = t.length := by
  cases e with
  | nil => simp [lowerL] at h
  | cons a e' =>
    simp only [lowerL, List.map_cons, List.cons.injEq] at h
    obtain ⟨ha, he⟩ := h
    refine ⟨e', by rw [toLower_eq_dot ha], ?_, ?_⟩
    · intro hm
      apply hn
      rw [← he]
      have : Char.toLower '.' = '.' := by decide
      exact List.mem_map.mpr ⟨'.', hm, this⟩
    · have := congrArg List.length he
      simpa using this

/-- Every member of the supported-format sets is `'.' :: rest` with `rest`
nonempty, dot-free, of length 3 or 4. -/
theorem sfx_shape {e : List Char} (h : lowerL e ∈ CompressImages.SUPPORTED_FORMATS) :
    ∃ rest, e = '.' :: rest ∧ rest ≠ [] ∧ '.' ∉ rest ∧
      (rest.length = 3 ∨ rest.length = 4) := by
  simp only [CompressImages.SUPPORTED_FORMATS, List.mem_cons, List.mem_singleton,
    List.not_mem_nil, or_false] at h
  rcases h with h | h | h | h | h <;>
  · rw [show (_ : String).toList = '.' :: _ from rfl] at h
    obtain ⟨rest, he, hd, hl⟩ := shape_of_lower h (by decide)
    simp only [List.length_cons, List.length_nil] at hl
    refine ⟨rest, he, ?_, hd, ?_⟩
    · intro h0; rw [h0] at hl; simp at hl
    · omega

/-- Function `splitName` recovers an explicit last-dot decomposition. -/
theorem splitName_eq (x rest : List Char) (hx : x ≠ []) (hr : rest ≠ [])
    (hd : '.' ∉ rest) : splitName (x ++ '.' :: rest) = (x, '.' :: rest) := by
  have hall : ∀ c ∈ rest.reverse, (c != '.') = true := by
    intro c hc
    simp only [bne_iff_ne, ne_eq]
    intro h0
    exact hd (by simpa [h0] using (List.mem_reverse.mp hc))
  have hrev : (x ++ '.' :: rest).reverse = rest.reverse ++ '.' :: x.reverse := by simp
  have h1 : (x ++ '.' :: rest).reverse.takeWhile (fun c => c != '.') = rest.reverse := by
    rw [hrev, List.takeWhile_append_of_pos hall,
      List.takeWhile_cons_of_neg (by decide), List.append_nil]
  have h2 : (x ++ '.' :: rest).reverse.dropWhile (fun c => c != '.') = '.' :: x.reverse := by
    rw [hrev, List.dropWhile_append_of_pos hall, List.dropWhile_cons_of_neg (by decide)]
  simp only [splitName, h1, h2]
  have hxe : x.reverse.isEmpty = false := by
    cases x with
    | nil => exact absurd rfl hx
    | cons a t => simp [List.isEmpty_cons]
  have hre : rest.reverse.isEmpty = false := by
    cases rest with
    | nil => exact absurd rfl hr
    | cons a t => simp [List.isEmpty_cons]
  simp [hxe, hre]

/-- The stem and suffix always reassemble into the name. -/
theorem stem_append_sfx (n : List Char) : stem n ++ sfx n = n := by
  unfold stem sfx
  cases h : n.reverse.dropWhile (fun c => c != '.') with
  | nil => simp only [splitName, h, List.append_nil]
  | cons c stemRev =>
    by_cases h1 : (n.reverse.takeWhile (fun c => c != '.')).isEmpty
    · simp only [splitName, h, h1, if_true, List.append_nil]
    · by_cases h2 : stemRev.isEmpty
      · simp only [splitName, h, h1, h2, Bool.false_eq_true, if_false, if_true,
          List.append_nil]
      · simp only [splitName, h, h1, h2, Bool.false_eq_true, if_false]
        have hrec := List.takeWhile_append_dropWhile (p := fun c => c != '.') (l := n.reverse)
        rw [h] at hrec
        have h3 := congrArg List.reverse hrec
        simp only [List.reverse_append, List.reverse_cons, List.reverse_reverse] at h3
        simpa using h3

namespace CompressImages

/-- The split of the derived target name: stem is source stem plus tag,
suffix is the source suffix. -/
theorem splitName_newName {q : Nat} {n : List Char}
    (h : lowerL (sfx n) ∈ SUPPORTED_FORMATS) :
    splitName (newNameOf q n) = (stem n ++ qualTag q, sfx n) := by
  obtain ⟨rest, he, hne, hd, _⟩ := sfx_shape h
  rw [newNameOf, he]
  exact splitName_eq _ _ (by simp [qualTag]) hne hd

/-- The temporary path never coincides with the target path for a candidate
source (its suffix is a supported image extension, not `.tmp`). -/
theorem tempPath_ne_targetPath {q : Nat} {p : PyPath}
    (h : lowerL (sfx p.name) ∈ SUPPORTED_FORMATS) :
    tempPath q p ≠ targetPath q p := by
  intro heq
  have hn := congrArg PyPath.name heq
  simp only [tempPath, targetPath] at hn
  rw [with_suffix, stem, splitName_newName h] at hn
  dsimp only at hn
  rw [newNameOf] at hn
  have h2 : (".tmp".toList : List Char) = sfx p.name :=
    List.append_cancel_left hn
  rw [← h2] at h
  exact absurd h (by decide)

end CompressImages

namespace CompressImages

theorem qualTag_reverse (q : Nat) :
    (qualTag q).reverse = '%' :: ((toString q).toList.reverse ++ ['_']) := by
  simp [qualTag]

/-- Cross-length case of target-name injectivity: a 4-character suffix on one
side and a 5-character suffix on the other force `'%' = '.'`. -/
theorem targetName_cross {q : Nat} {n₁ n₂ r₁ r₂ : List Char}
    (he₁ : sfx n₁ = '.' :: r₁) (he₂ : sfx n₂ = '.' :: r₂)
    (hl₁ : r₁.length = 3) (hl₂ : r₂.length = 4)
    (heq : newNameOf q n₁ = newNameOf q n₂) : False := by
  have h := congrArg List.reverse heq
  rw [newNameOf, newNameOf, he₁, he₂] at h
  simp only [List.reverse_append, List.reverse_cons, qualTag_reverse] at h
  have hre : ∀ (a Z : List Char), (a ++ ['.']) ++ ('%' :: Z) = (a ++ ['.', '%']) ++ Z := by
    intro a Z; simp
  rw [show ('%' :: ((toString q).toList.reverse ++ ['_'])) ++ (stem n₁).reverse
        = '%' :: (((toString q).toList.reverse ++ ['_']) ++ (stem n₁).reverse) from rfl] at h
  rw [show ('%' :: ((toString q).toList.reverse ++ ['_'])) ++ (stem n₂).reverse
        = '%' :: (((toString q).toList.reverse ++ ['_']) ++ (stem n₂).reverse) from rfl] at h
  rw [hre] at h
  obtain ⟨hA, hB⟩ := List.append_inj h (by simp [hl₁, hl₂])
  have h2 := congrArg List.reverse hA
  simp only [List.reverse_append, List.reverse_cons, List.reverse_reverse] at h2
  simp at h2
end CompressImages

namespace CompressImages

/-- Equal-suffix-length case of target-name injectivity. -/
theorem targetName_inj_eqlen {q : Nat} {n₁ n₂ : List Char}
    (hsl : (sfx n₁).length = (sfx n₂).length)
    (heq : newNameOf q n₁ = newNameOf q n₂) : n₁ = n₂ := by
  rw [newNameOf, newNameOf] at heq
  obtain ⟨hst, hsf⟩ := List.append_inj' heq hsl
  have hstem := List.append_cancel_right hst
  calc n₁ = stem n₁ ++ sfx n₁ := (stem_append_sfx n₁).symm
    _ = stem n₂ ++ sfx n₂ := by rw [hstem, hsf]
    _ = n₂ := stem_append_sfx n₂

/-- The source-to-target derivation of `compress_image` is injective over
candidate files (files whose lowercased suffix is a supported format). -/
theorem targetPath_inj {q : Nat} {p₁ p₂ : PyPath}
    (h₁ : lowerL (sfx p₁.name) ∈ SUPPORTED_FORMATS)
    (h₂ : lowerL (sfx p₂.name) ∈ SUPPORTED_FORMATS)
    (heq : targetPath q p₁ = targetPath q p₂) : p₁ = p₂ := by
  have hd := congrArg PyPath.dir heq
  have hn := congrArg PyPath.name heq
  simp only [targetPath] at hd hn
  obtain ⟨r₁, he₁, _, _, hl₁⟩ := sfx_shape h₁
  obtain ⟨r₂, he₂, _, _, hl₂⟩ := sfx_shape h₂
  have hname : p₁.name = p₂.name := by
    rcases hl₁ with hl₁ | hl₁ <;> rcases hl₂ with hl₂ | hl₂
    · exact targetName_inj_eqlen (by rw [he₁, he₂]; simp [hl₁, hl₂]) hn
    · exact absurd (targetName_cross he₁ he₂ hl₁ hl₂ hn) (fun h => h)
    · exact absurd (targetName_cross he₂ he₁ hl₂ hl₁ hn.symm) (fun h => h)
    · exact targetName_inj_eqlen (by rw [he₁, he₂]; simp [hl₁, hl₂]) hn
  cases p₁; cases p₂
  simp_all

end CompressImages

open CompressImages ImagesToWebp

/-- On every non-`success` outcome of `compress_image`, the target path is
left in its prior state or absent. -/
theorem compress_target_preserved (env : Env) (fs : Fs) (p : PyPath) (q : Nat)
    (ow ke dr : Bool)
    (hcand : lowerL (sfx p.name) ∈ CompressImages.SUPPORTED_FORMATS)
    (hns : (compress_image env fs p q ow ke dr).1.status ≠ "success") :
    fsGet (compress_image env fs p q ow ke dr).2 (targetPath q p)
        = fsGet fs (targetPath q p) ∨
      fsGet (compress_image env fs p q ow ke dr).2 (targetPath q p) = none := by
  have hne : tempPath q p ≠ targetPath q p := tempPath_ne_targetPath hcand
  by_cases h1 : stemHasTag (stem p.name)
  · simp [compress_image, h1]
  · by_cases h2 : (fsExists fs (targetPath q p) && !ow) = true
    · simp [compress_image, h1, h2]
    · cases h3 : fsGet fs p with
      | none => simp [compress_image, h1, h2, h3]
      | some fd =>
        by_cases h4 : dr
        · simp [compress_image, h1, h2, h3, h4]
        · by_cases h5 : env.openOk
          · by_cases h6 : env.saveOk
            · by_cases h7 : env.encodedSize ≥ fd.size
              · left
                simp only [compress_image, h1, h2, h3, h4, h5, h6, h7]
                simp only [Bool.not_true, Bool.false_eq_true, if_false, if_true, ge_iff_le]
                rw [fsGet_del_ne _ _ _ hne, fsGet_set_ne _ _ _ _ hne]
              · by_cases h8 : env.renameOk
                · exfalso
                  apply hns
                  simp [compress_image, h1, h2, h3, h4, h5, h6, h7, h8]
                · by_cases h9 : fsExists (fsSet fs (tempPath q p) ⟨env.encodedSize, true⟩) (targetPath q p)
                  · right
                    simp only [compress_image, h1, h2, h3, h4, h5, h6, h7, h8, h9]
                    simp [fsGet_del_self]
                  · left
                    simp only [compress_image, h1, h2, h3, h4, h5, h6, h7, h8, h9]
                    simp [fsGet_set_ne _ _ _ _ hne]
            · left
              simp only [compress_image, h1, h2, h3, h4, h5, h6]
              simp [fsGet_set_ne _ _ _ _ hne]
          · simp [compress_image, h1, h2, h3, h4, h5]

/-- A failing encode inside `compress_image` lands its partial bytes at the
temporary sibling path and leaves the target path untouched. -/
theorem compress_savefail_writes_temp (env : Env) (fs : Fs) (p : PyPath) (q : Nat)
    (ow ke : Bool) (fd : FileData)
    (hcand : lowerL (sfx p.name) ∈ CompressImages.SUPPORTED_FORMATS)
    (h1 : stemHasTag (stem p.name) = false)
    (h2 : (fsExists fs (targetPath q p) && !ow) = false)
    (h3 : fsGet fs p = some fd)
    (h5 : env.openOk = true) (h6 : env.saveOk = false) :
    (compress_image env fs p q ow ke false).1.status = "failed" ∧
    fsGet (compress_image env fs p q ow ke false).2 (tempPath q p)
      = some ⟨env.truncSize, false⟩ ∧
    fsGet (compress_image env fs p q ow ke false).2 (targetPath q p)
      = fsGet fs (targetPath q p) := by
  have hne : tempPath q p ≠ targetPath q p := tempPath_ne_targetPath hcand
  refine ⟨?_, ?_, ?_⟩ <;>
    simp [compress_image, h1, h2, h3, h5, h6, fsGet_set_self,
      fsGet_set_ne _ _ _ _ hne]

/-- A failing encode inside `convert_to_webp` lands its partial bytes
directly at the final target path. -/
theorem convert_savefail_writes_target (env : Env) (fs : Fs) (p : PyPath)
    (root : List String) (q : Nat) (ow : Bool) (fd : FileData)
    (h2 : (fsExists fs (webpTarget root p) && !ow) = false)
    (h3 : fsGet fs p = some fd)
    (h4 : env.mkdirOk = true) (h5 : env.openOk = true) (h6 : env.saveOk = false) :
    (convert_to_webp env fs p root q ow false).1.status = "failed" ∧
    fsGet (convert_to_webp env fs p root q ow false).2 (webpTarget root p)
      = some ⟨env.truncSize, false⟩ := by
  refine ⟨?_, ?_⟩ <;>
    simp [convert_to_webp, h2, h3, h4, h5, h6, fsGet_set_self]

/-- C1 counterexample: in `convert_to_webp` the encoded bytes are written
directly to the final target path, so a failure during the write leaves a
partial file there — the target path was absent before the call and holds a
non-intact file afterwards, refuting the claim that both transforms write to
a temporary sibling first and leave the target untouched on failure. -/
theorem claim_C1_counterexample :
    fsGet fsJpg (webpTarget ["photos"] srcJpg) = none ∧
    (convert_to_webp envSaveFail fsJpg srcJpg ["photos"] 80 false false).1.status
      = "failed" ∧
    fsGet (convert_to_webp envSaveFail fsJpg srcJpg ["photos"] 80 false false).2
        (webpTarget ["photos"] srcJpg) = some ⟨7, false⟩ := by
  refine ⟨by decide, by decide, by decide⟩

/-- C1 amended: `compress_image` follows the temp-then-rename protocol — on
any non-`success` outcome the target path is in its prior state or absent,
and a failing encode lands its bytes at the `.tmp` sibling, never the target;
`convert_to_webp`, by contrast, writes the encoded bytes directly to the
final target path, so a failing encode leaves a partial file there. -/
theorem claim_C1 :
    (∀ (env : Env) (fs : Fs) (p : PyPath) (q : Nat) (ow ke dr : Bool),
      lowerL (sfx p.name) ∈ CompressImages.SUPPORTED_FORMATS →
      (compress_image env fs p q ow ke dr).1.status ≠ "success" →
      fsGet (compress_image env fs p q ow ke dr).2 (targetPath q p)
          = fsGet fs (targetPath q p) ∨
        fsGet (compress_image env fs p q ow ke dr).2 (targetPath q p) = none) ∧
    (∀ (env : Env) (fs : Fs) (p : PyPath) (q : Nat) (ow ke : Bool) (fd : FileData),
      lowerL (sfx p.name) ∈ CompressImages.SUPPORTED_FORMATS →
      stemHasTag (stem p.name) = false →
      (fsExists fs (targetPath q p) && !ow) = false →
      fsGet fs p = some fd → env.openOk = true → env.saveOk = false →
      (compress_image env fs p q ow ke false).1.status = "failed" ∧
      fsGet (compress_image env fs p q ow ke false).2 (tempPath q p)
        = some ⟨env.truncSize, false⟩ ∧
      fsGet (compress_image env fs p q ow ke false).2 (targetPath q p)
        = fsGet fs (targetPath q p)) ∧
    (∀ (env : Env) (fs : Fs) (p : PyPath) (root : List String) (q : Nat)
        (ow : Bool) (fd : FileData),
      (fsExists fs (webpTarget root p) && !ow) = false →
      fsGet fs p = some fd → env.mkdirOk = true → env.openOk = true →
      env.saveOk = false →
      (convert_to_webp env fs p root q ow false).1.status = "failed" ∧
      fsGet (convert_to_webp env fs p root q ow false).2 (webpTarget root p)
        = some ⟨env.truncSize, false⟩) :=
  ⟨fun env fs p q ow ke dr hcand hns =>
      compress_target_preserved env fs p q ow ke dr hcand hns,
   fun env fs p q ow ke fd hcand h1 h2 h3 h5 h6 =>
      compress_savefail_writes_temp env fs p q ow ke fd hcand h1 h2 h3 h5 h6,
   fun env fs p root q ow fd h2 h3 h4 h5 h6 =>
      convert_savefail_writes_target env fs p root q ow fd h2 h3 h4 h5 h6⟩

/-- C1 witness: the amended theorem applied to a concrete failing encode of
`photos/a.jpg`. -/
theorem claim_C1_witness :
    (compress_image envSaveFail fsJpg srcJpg 70 false false false).1.status
      = "failed" ∧
    fsGet (compress_image envSaveFail fsJpg srcJpg 70 false false false).2
        (tempPath 70 srcJpg) = some ⟨envSaveFail.truncSize, false⟩ ∧
    fsGet (compress_image envSaveFail fsJpg srcJpg 70 false false false).2
        (targetPath 70 srcJpg) = fsGet fsJpg (targetPath 70 srcJpg) :=
  claim_C1.2.1 envSaveFail fsJpg srcJpg 70 false false ⟨10240, true⟩
    (by decide) (by decide) (by decide) (by decide) (by decide) (by decide)

/-- C2 counterexample: with `--overwrite` and a file already sitting at the
target path, a size-regressed encode returns `size_skip` but a file (the old
target) still exists at the target path afterwards, refuting the unqualified
"no file exists at the target path afterward". -/
theorem claim_C2_counterexample :
    (compress_image envBig fsJpgWithTarget srcJpg 70 true false false).1.status
      = "size_skip" ∧
    fsGet (compress_image envBig fsJpgWithTarget srcJpg 70 true false false).2
        (targetPath 70 srcJpg) = some ⟨3000, true⟩ := by
  refine ⟨by decide, by decide⟩

/-- C2 amended: when the encode of `compress_image` is not strictly smaller
than the source, the transform deletes the temporary file and returns
`size_skip` instead of `success`, leaving the target path exactly as it was
before the call (in particular still absent if it was absent); the forced
format conversion `convert_to_webp` publishes the result and reports
`success` regardless of the size delta. -/
theorem claim_C2 :
    (∀ (env : Env) (fs : Fs) (p : PyPath) (q : Nat) (ow ke : Bool) (fd : FileData),
      lowerL (sfx p.name) ∈ CompressImages.SUPPORTED_FORMATS →
      stemHasTag (stem p.name) = false →
      (fsExists fs (targetPath q p) && !ow) = false →
      fsGet fs p = some fd → env.openOk = true → env.saveOk = true →
      fd.size ≤ env.encodedSize →
      (compress_image env fs p q ow ke false).1.status = "size_skip" ∧
      fsGet (compress_image env fs p q ow ke false).2 (tempPath q p) = none ∧
      fsGet (compress_image env fs p q ow ke false).2 (targetPath q p)
        = fsGet fs (targetPath q p)) ∧
    (∀ (env : Env) (fs : Fs) (p : PyPath) (root : List String) (q : Nat)
        (ow : Bool) (fd : FileData),
      (fsExists fs (webpTarget root p) && !ow) = false →
      fsGet fs p = some fd → env.mkdirOk = true → env.openOk = true →
      env.saveOk = true →
      (convert_to_webp env fs p root q ow false).1.status = "success" ∧
      (convert_to_webp env fs p root q ow false).1.original_size = fd.size ∧
      (convert_to_webp env fs p root q ow false).1.new_size = env.encodedSize) := by
  constructor
  · intro env fs p q ow ke fd hcand h1 h2 h3 h5 h6 h7
    have hne : tempPath q p ≠ targetPath q p := tempPath_ne_targetPath hcand
    refine ⟨?_, ?_, ?_⟩ <;>
      simp [compress_image, h1, h2, h3, h5, h6, h7, fsGet_del_self,
        fsGet_del_ne _ _ _ hne, fsGet_set_ne _ _ _ _ hne]
  · intro env fs p root q ow fd h2 h3 h4 h5 h6
    refine ⟨?_, ?_, ?_⟩ <;> simp [convert_to_webp, h2, h3, h4, h5, h6]

/-- C2 witness: a concrete regressed encode of `photos/a.jpg` (10240 bytes
in, 15000 bytes out) yields `size_skip` and an untouched, still-absent target,
and a concrete regressed `convert_to_webp` still reports `success`. -/
theorem claim_C2_witness :
    ((compress_image envBig fsJpg srcJpg 70 false false false).1.status
        = "size_skip" ∧
      fsGet (compress_image envBig fsJpg srcJpg 70 false false false).2
        (tempPath 70 srcJpg) = none ∧
      fsGet (compress_image envBig fsJpg srcJpg 70 false false false).2
        (targetPath 70 srcJpg) = fsGet fsJpg (targetPath 70 srcJpg)) ∧
    ((convert_to_webp envBig fsJpg srcJpg ["photos"] 80 false false).1.status
        = "success") :=
  ⟨claim_C2.1 envBig fsJpg srcJpg 70 false false ⟨10240, true⟩
      (by decide) (by decide) (by decide) (by decide) (by decide) (by decide)
      (by decide),
   (claim_C2.2 envBig fsJpg srcJpg ["photos"] 80 false ⟨10240, true⟩
      (by decide) (by decide) (by decide) (by decide) (by decide)).1⟩

/-- C3 (confirmed): any file whose stem ends in `_<digits>%` — for an
arbitrary digit sequence, independent of the configured quality — makes
`compress_image` return the already-compressed `skipped` outcome with the
filesystem untouched, regardless of target existence or the overwrite flag
(the check runs before the existence test and before any I/O); and
`convert_to_webp`, which writes into a separate output root, performs no such
suffix test: a tagged name still proceeds (here into the dry-run preview). -/
theorem claim_C3 :
    (∀ (env : Env) (fs : Fs) (p : PyPath) (q : Nat) (ow ke dr : Bool),
      stemHasTag (stem p.name) = true →
      compress_image env fs p q ow ke dr =
        (⟨"skipped", "跳過已壓縮: " ++ nameStr p, 0, 0⟩, fs)) ∧
    (∀ (env : Env) (fs : Fs) (p : PyPath) (root : List String) (q : Nat)
        (ow : Bool) (fd : FileData),
      fsExists fs (webpTarget root p) = false →
      fsGet fs p = some fd →
      (convert_to_webp env fs p root q ow true).1.status = "dry_run") := by
  constructor
  · intro env fs p q ow ke dr h
    simp [compress_image, h]
  · intro env fs p root q ow fd h2 h3
    simp [convert_to_webp, h2, h3]

/-- C3 witness: `b_70%.png` is skipped by `compress_image` even when the run
is configured with quality 30 and a file already sits at the would-be target,
while `convert_to_webp` still processes the same tagged name. -/
theorem claim_C3_witness :
    compress_image envOk fsJpgWithTarget srcTagged 30 false false false =
      (⟨"skipped", "跳過已壓縮: " ++ nameStr srcTagged, 0, 0⟩, fsJpgWithTarget) ∧
    (convert_to_webp envOk [(srcTagged, ⟨2048, true⟩)] srcTagged ["photos"] 80
        false true).1.status = "dry_run" :=
  ⟨claim_C3.1 envOk fsJpgWithTarget srcTagged 30 false false false (by decide),
   claim_C3.2 envOk [(srcTagged, ⟨2048, true⟩)] srcTagged ["photos"] 80 false
     ⟨2048, true⟩ (by decide) (by decide)⟩

/-- C4 counterexample: the §8 scenario's 10 KB `c.bmp` is not skipped —
`compress_image` has no format-exclusion step, so the file is decoded and
re-encoded, and with a shrinking encode the outcome is `success`. -/
theorem claim_C4_counterexample :
    (compress_image envOk fsBmp srcBmp 70 false false false).1.status
      = "success" ∧
    (compress_image envOk fsBmp srcBmp 70 false false false).1.status
      ≠ "skipped" := by
  refine ⟨by decide, by decide⟩

/-- C4 amended: `.bmp` is a member of `SUPPORTED_FORMATS` and
`compress_image` contains no format-exclusion check: an untagged `.bmp`
source with a free target proceeds through decode and encode like any other
supported format, ending in `size_skip` or `success` according to the size
comparison — never in an immediate `skipped`. -/
theorem claim_C4 :
    (".bmp".toList ∈ CompressImages.SUPPORTED_FORMATS) ∧
    (∀ (env : Env) (fs : Fs) (p : PyPath) (q : Nat) (ow ke : Bool) (fd : FileData),
      lowerL (sfx p.name) = ".bmp".toList →
      stemHasTag (stem p.name) = false →
      (fsExists fs (targetPath q p) && !ow) = false →
      fsGet fs p = some fd →
      env.openOk = true → env.saveOk = true → env.renameOk = true →
      (compress_image env fs p q ow ke false).1.status =
        (if fd.size ≤ env.encodedSize then "size_skip" else "success")) := by
  refine ⟨by decide, ?_⟩
  intro env fs p q ow ke fd hbmp h1 h2 h3 h5 h6 h8
  by_cases h7 : fd.size ≤ env.encodedSize
  · simp [compress_image, h1, h2, h3, h5, h6, h7]
  · have h7' : env.encodedSize < fd.size := by omega
    simp [compress_image, h1, h2, h3, h5, h6, h8, if_neg h7,
      Nat.not_le.mpr h7']

/-- C4 witness: the amended theorem evaluated on the §8 `c.bmp` itself. -/
theorem claim_C4_witness :
    (compress_image envOk fsBmp srcBmp 70 false false false).1.status =
      (if (10240 : Nat) ≤ 5000 then "size_skip" else "success") :=
  claim_C4.2 envOk fsBmp srcBmp 70 false false ⟨10240, true⟩
    (by decide) (by decide) (by decide) (by decide) (by decide) (by decide)
    (by decide)

/-- C5 counterexample: two distinct candidate sources in the same directory
that differ only in their extension — `photos/a.jpg` and `photos/a.png`,
both with supported suffixes — derive the *same* temporary path
`photos/a_70%.tmp`, because `with_suffix('.tmp')` discards the extension that
distinguishes their targets; the temp-path derivation is not injective. -/
theorem claim_C5_counterexample :
    lowerL (sfx srcJpg.name) ∈ CompressImages.SUPPORTED_FORMATS ∧
    lowerL (sfx srcPng.name) ∈ CompressImages.SUPPORTED_FORMATS ∧
    srcJpg ≠ srcPng ∧
    tempPath 70 srcJpg = tempPath 70 srcPng := by
  refine ⟨by decide, by decide, by decide, by decide⟩

/-- C5 amended: the source-to-target derivation of `compress_image` is
injective over candidate files (so two workers never contend for the same
target path), but the source-to-temp derivation is not — distinct candidates
may map to the same `.tmp` sibling. -/
theorem claim_C5 :
    ∀ (q : Nat) (p₁ p₂ : PyPath),
      lowerL (sfx p₁.name) ∈ CompressImages.SUPPORTED_FORMATS →
      lowerL (sfx p₂.name) ∈ CompressImages.SUPPORTED_FORMATS →
      targetPath q p₁ = targetPath q p₂ → p₁ = p₂ :=
  fun q p₁ p₂ h₁ h₂ heq => targetPath_inj h₁ h₂ heq

/-- C5 witness: the amended injectivity applied at concrete candidates. -/
theorem claim_C5_witness : srcJpg = srcJpg :=
  claim_C5 70 srcJpg srcJpg (by decide) (by decide) rfl

/-- C7 (confirmed): both transforms are total — every run ends in one of the
five status tags, never an escaped exception — and every `failed` outcome
carries zero sizes and a message of the `✗ 處理失敗 {filepath}: {error}`
shape, naming the source path and the underlying error text. -/
theorem claim_C7 :
    (∀ (env : Env) (fs : Fs) (p : PyPath) (q : Nat) (ow ke dr : Bool),
      ((compress_image env fs p q ow ke dr).1.status = "success" ∨
       (compress_image env fs p q ow ke dr).1.status = "skipped" ∨
       (compress_image env fs p q ow ke dr).1.status = "size_skip" ∨
       (compress_image env fs p q ow ke dr).1.status = "dry_run" ∨
       (compress_image env fs p q ow ke dr).1.status = "failed") ∧
      ((compress_image env fs p q ow ke dr).1.status = "failed" →
        (compress_image env fs p q ow ke dr).1.original_size = 0 ∧
        (compress_image env fs p q ow ke dr).1.new_size = 0 ∧
        ∃ e, (compress_image env fs p q ow ke dr).1.message = failMsg p e)) ∧
    (∀ (env : Env) (fs : Fs) (p : PyPath) (root : List String) (q : Nat)
        (ow dr : Bool),
      ((convert_to_webp env fs p root q ow dr).1.status = "success" ∨
       (convert_to_webp env fs p root q ow dr).1.status = "skipped" ∨
       (convert_to_webp env fs p root q ow dr).1.status = "dry_run" ∨
       (convert_to_webp env fs p root q ow dr).1.status = "failed") ∧
      ((convert_to_webp env fs p root q ow dr).1.status = "failed" →
        (convert_to_webp env fs p root q ow dr).1.original_size = 0 ∧
        (convert_to_webp env fs p root q ow dr).1.new_size = 0 ∧
        ∃ e, (convert_to_webp env fs p root q ow dr).1.message = failMsg p e)) := by
  constructor
  · intro env fs p q ow ke dr
    by_cases h1 : stemHasTag (stem p.name)
    · simp [compress_image, h1]
    · by_cases h2 : (fsExists fs (targetPath q p) && !ow) = true
      · simp [compress_image, h1, h2]
      · cases h3 : fsGet fs p with
        | none =>
          refine ⟨by simp [compress_image, h1, h2, h3], fun _ => ?_⟩
          simp only [compress_image, h1, h2, h3]
          exact ⟨rfl, rfl, _, rfl⟩
        | some fd =>
          by_cases h4 : dr
          · simp [compress_image, h1, h2, h3, h4]
          · by_cases h5 : env.openOk
            · by_cases h6 : env.saveOk
              · by_cases h7 : env.encodedSize ≥ fd.size
                · simp [compress_image, h1, h2, h3, h4, h5, h6, h7]
                · by_cases h8 : env.renameOk
                  · simp [compress_image, h1, h2, h3, h4, h5, h6, h7, h8]
                  · refine ⟨by simp [compress_image, h1, h2, h3, h4, h5, h6, h7, h8],
                      fun _ => ?_⟩
                    simp only [compress_image, h1, h2, h3, h4, h5, h6, h7, h8]
                    constructor
                    · simp
                    constructor
                    · simp
                    exact ⟨env.renameErr, by simp⟩
              · refine ⟨by simp [compress_image, h1, h2, h3, h4, h5, h6],
                  fun _ => ?_⟩
                simp only [compress_image, h1, h2, h3, h4, h5, h6]
                constructor
                · simp
                constructor
                · simp
                exact ⟨env.saveErr, by simp⟩
            · refine ⟨by simp [compress_image, h1, h2, h3, h4, h5], fun _ => ?_⟩
              simp only [compress_image, h1, h2, h3, h4, h5]
              constructor
              · simp
              constructor
              · simp
              exact ⟨env.openErr, by simp⟩
  · intro env fs p root q ow dr
    by_cases h2 : (fsExists fs (webpTarget root p) && !ow) = true
    · simp [convert_to_webp, h2]
    · cases h3 : fsGet fs p with
      | none =>
        refine ⟨by simp [convert_to_webp, h2, h3], fun _ => ?_⟩
        simp only [convert_to_webp, h2, h3]
        exact ⟨rfl, rfl, _, rfl⟩
      | some fd =>
        by_cases h4 : dr
        · simp [convert_to_webp, h2, h3, h4]
        · by_cases hm : env.mkdirOk
          · by_cases h5 : env.openOk
            · by_cases h6 : env.saveOk
              · simp [convert_to_webp, h2, h3, h4, hm, h5, h6]
              · refine ⟨by simp [convert_to_webp, h2, h3, h4, hm, h5, h6],
                  fun _ => ?_⟩
                simp only [convert_to_webp, h2, h3, h4, hm, h5, h6]
                constructor
                · simp
                constructor
                · simp
                exact ⟨env.saveErr, by simp⟩
            · refine ⟨by simp [convert_to_webp, h2, h3, h4, hm, h5], fun _ => ?_⟩
              simp only [convert_to_webp, h2, h3, h4, hm, h5]
              constructor
              · simp
              constructor
              · simp
              exact ⟨env.openErr, by simp⟩
          · refine ⟨by simp [convert_to_webp, h2, h3, h4, hm], fun _ => ?_⟩
            simp only [convert_to_webp, h2, h3, h4, hm]
            constructor
            · simp
            constructor
            · simp
            exact ⟨env.mkdirErr, by simp⟩

/-- C7 witness: a concrete decode failure is returned as a `failed` outcome
whose message is built from the source path and the error text. -/
theorem claim_C7_witness :
    ((compress_image envSaveFail fsJpg srcJpg 70 false false false).1.status
        = "failed" →
      (compress_image envSaveFail fsJpg srcJpg 70 false false false).1.original_size
          = 0 ∧
      (compress_image envSaveFail fsJpg srcJpg 70 false false false).1.new_size
          = 0 ∧
      ∃ e, (compress_image envSaveFail fsJpg srcJpg 70 false false
          false).1.message = failMsg srcJpg e) ∧
    ((compress_image envSaveFail fsJpg srcJpg 70 false false false).1.original_size
        = 0) :=
  ⟨(claim_C7.1 envSaveFail fsJpg srcJpg 70 false false false).2,
   ((claim_C7.1 envSaveFail fsJpg srcJpg 70 false false false).2 (by decide)).1⟩

open Utils

/-- The statistics update commutes with itself: applying two outcomes in
either order yields the same summary. -/
theorem applyResult_comm (s : ProcessingSummary) (a b : FileResult) :
    applyResult (applyResult s a) b = applyResult (applyResult s b) a := by
  obtain ⟨s1, s2, s3, s4, s5, s6⟩ := s
  simp only [applyResult]
  split_ifs <;> simp_all [ProcessingSummary.mk.injEq] <;> omega

/-- C8 (confirmed): the outcome-to-summary fold of `run_pipeline` is
order-independent — permuting the outcome list leaves the aggregate
unchanged; each outcome bumps exactly one of the four status counters;
`dry_run` (the preview status) is folded into the `skipped` counter exactly
as `skipped` itself is; and the byte totals move only on `success`, by the
outcome's original and new sizes. -/
theorem claim_C8 :
    (∀ (l₁ l₂ : List FileResult), l₁.Perm l₂ → aggregate l₁ = aggregate l₂) ∧
    (∀ (s : ProcessingSummary) (r : FileResult),
      counterSum (applyResult s r) = counterSum s + 1) ∧
    (∀ (s : ProcessingSummary) (r : FileResult), r.status = "dry_run" →
      applyResult s r = { s with skipped := s.skipped + 1 }) ∧
    (∀ (s : ProcessingSummary) (r : FileResult), r.status = "skipped" →
      applyResult s r = { s with skipped := s.skipped + 1 }) ∧
    (∀ (s : ProcessingSummary) (r : FileResult), r.status ≠ "success" →
      (applyResult s r).total_original = s.total_original ∧
      (applyResult s r).total_new = s.total_new) ∧
    (∀ (s : ProcessingSummary) (r : FileResult), r.status = "success" →
      (applyResult s r).total_original = s.total_original + r.original_size ∧
      (applyResult s r).total_new = s.total_new + r.new_size) := by
  refine ⟨?_, ?_, ?_, ?_, ?_, ?_⟩
  · intro l₁ l₂ hp
    exact hp.foldl_eq' (fun x _ y _ z => applyResult_comm z x y) initSummary
  · intro s r
    simp only [applyResult, counterSum]
    split_ifs <;> simp <;> omega
  · intro s r h
    simp [applyResult, h]
  · intro s r h
    simp [applyResult, h]
  · intro s r h
    simp only [applyResult]
    split_ifs <;> simp_all
  · intro s r h
    simp [applyResult, h]

/-- C8 witness: swapping a concrete `success` and a concrete `dry_run`
outcome leaves the aggregated summary unchanged. -/
theorem claim_C8_witness :
    aggregate [resSuccess, resPreview] = aggregate [resPreview, resSuccess] :=
  claim_C8.1 [resSuccess, resPreview] [resPreview, resSuccess]
    (List.Perm.swap resPreview resSuccess [])

/-- Unfolding of the per-file keep decision of `collect_files` into its
propositional form. -/
theorem keepFile_iff (supported : List (List Char)) (exclude_dirs : List String)
    (max_depth min_size max_size : Option Nat) (f : Entry) :
    keepFile supported exclude_dirs max_depth min_size max_size f = true ↔
      (f.isFile = true ∧
       (∀ d, max_depth = some d → f.parts.length - 1 ≤ d) ∧
       f.parts.any (is_ignored exclude_dirs) = false ∧
       supported.contains (lowerL (entrySuffix f)) = true ∧
       ∃ s, f.sz = some s ∧
         (∀ m, min_size = some m → m ≤ s) ∧
         (∀ m, max_size = some m → s ≤ m)) := by
  cases max_depth <;> cases min_size <;> cases max_size <;>
    cases hsz : f.sz <;>
    simp [keepFile, hsz] <;> tauto

/-- C6 (confirmed): membership in the candidate set of `collect_files` is
exactly: listed by the scan, a regular file, within the depth bound when one
is given (depth = relative components minus one, so `maxDepth = 0` admits
only direct children and `none` is unbounded), free of ignored components,
of a supported lowercased extension, and of readable size lying inclusively
within the given bounds (a file whose size cannot be read is silently
excluded). -/
theorem claim_C6 :
    ∀ (entries : List Entry) (supported : List (List Char))
      (exclude_dirs : List String) (max_depth min_size max_size : Option Nat)
      (f : Entry),
      f ∈ collect_files entries supported exclude_dirs max_depth min_size max_size ↔
        (f ∈ entries ∧ f.isFile = true ∧
         (∀ d, max_depth = some d → f.parts.length - 1 ≤ d) ∧
         f.parts.any (is_ignored exclude_dirs) = false ∧
         supported.contains (lowerL (entrySuffix f)) = true ∧
         ∃ s, f.sz = some s ∧
           (∀ m, min_size = some m → m ≤ s) ∧
           (∀ m, max_size = some m → s ≤ m)) := by
  intro entries supported exclude_dirs max_depth min_size max_size f
  rw [collect_files, List.mem_filter, keepFile_iff]

/-- C6 witness: the characterization evaluated on a concrete depth-1
`sub/pic.jpg` of 5000 bytes under `maxDepth = 1`, `minSize = 1024`,
`maxSize = 10240`. -/
theorem claim_C6_witness :
    entryJpg ∈ collect_files [entryJpg] CompressImages.SUPPORTED_FORMATS []
      (some 1) (some 1024) (some 10240) :=
  (claim_C6 [entryJpg] CompressImages.SUPPORTED_FORMATS [] (some 1) (some 1024)
      (some 10240) entryJpg).mpr
    ⟨List.mem_singleton.mpr rfl, rfl,
     fun d hd => by cases hd; decide,
     by decide, by decide,
     5000, rfl, fun m hm => by cases hm; decide, fun m hm => by cases hm; decide⟩

/-- C9 (confirmed): the ignore rule of `collect_files` is applied to every
relative-path component including the file name itself — a file whose own
name starts with `.` or `__` is excluded from the candidate set no matter
what its directory segments look like and no matter the rest of the
configuration. -/
theorem claim_C9 :
    ∀ (entries : List Entry) (supported : List (List Char))
      (exclude_dirs : List String) (max_depth min_size max_size : Option Nat)
      (f : Entry) (ds : List String) (nm : String),
      f.parts = ds ++ [nm] →
      (startswith nm ['.'] || startswith nm ['_', '_']) = true →
      f ∉ collect_files entries supported exclude_dirs max_depth min_size max_size := by
  intro entries supported exclude_dirs max_depth min_size max_size f ds nm hparts hpre hmem
  have h := ((claim_C6 entries supported exclude_dirs max_depth min_size max_size
    f).mp hmem).2.2.2.1
  rw [List.any_eq_false] at h
  have hnm : nm ∈ f.parts := by
    rw [hparts]
    exact List.mem_append_right ds (List.mem_singleton.mpr rfl)
  apply h nm hnm
  simp only [is_ignored, Bool.or_eq_true]
  rcases Bool.or_eq_true _ _ |>.mp hpre with h1 | h1
  · exact Or.inl (Or.inl h1)
  · exact Or.inl (Or.inr h1)

/-- C9 witness: `.photo.jpg` in the scan root, with an ordinary (empty)
directory path, is not collected even though its extension and size pass. -/
theorem claim_C9_witness :
    entryHidden ∉ collect_files [entryHidden] CompressImages.SUPPORTED_FORMATS []
      none none none :=
  claim_C9 [entryHidden] CompressImages.SUPPORTED_FORMATS [] none none none
    entryHidden [] ".photo.jpg" rfl (by decide)

/-! ### Character classes for the size parser -/

theorem char_isDigit_toNat {c : Char} (h : c.isDigit = true) :
    48 ≤ c.toNat ∧ c.toNat ≤ 57 := by
  simp only [Char.isDigit] at h
  obtain ⟨h1, h2⟩ := Bool.and_eq_true _ _ |>.mp h
  simp only [decide_eq_true_eq, ge_iff_le] at h1 h2
  rw [UInt32.le_def] at h1 h2
  simp only [BitVec.le_def] at h1 h2
  exact ⟨h1, h2⟩

theorem char_isUpper_toNat {c : Char} (h : c.isUpper = true) :
    65 ≤ c.toNat ∧ c.toNat ≤ 90 := by
  simp only [Char.isUpper] at h
  obtain ⟨h1, h2⟩ := Bool.and_eq_true _ _ |>.mp h
  simp only [decide_eq_true_eq, ge_iff_le] at h1 h2
  rw [UInt32.le_def] at h1 h2
  simp only [BitVec.le_def] at h1 h2
  exact ⟨h1, h2⟩

theorem char_isLower_toNat {c : Char} (h : c.isLower = true) :
    97 ≤ c.toNat ∧ c.toNat ≤ 122 := by
  simp only [Char.isLower] at h
  obtain ⟨h1, h2⟩ := Bool.and_eq_true _ _ |>.mp h
  simp only [decide_eq_true_eq, ge_iff_le] at h1 h2
  rw [UInt32.le_def] at h1 h2
  simp only [BitVec.le_def] at h1 h2
  exact ⟨h1, h2⟩

theorem isDigit_not_ws {c : Char} (h : c.isDigit = true) :
    c.isWhitespace = false := by
  by_contra hw
  simp only [Bool.not_eq_false, Char.isWhitespace, Bool.or_eq_true,
    decide_eq_true_eq] at hw
  rcases hw with ((h1 | h1) | h1) | h1 <;> subst h1 <;> exact absurd h (by decide)

theorem isDigit_ne_dot {c : Char} (h : c.isDigit = true) : (c != '.') = true := by
  simp only [bne_iff_ne, ne_eq]
  rintro rfl
  exact absurd h (by decide)

theorem isAlpha_not_ws {c : Char} (h : c.isAlpha = true) :
    c.isWhitespace = false := by
  by_contra hw
  simp only [Bool.not_eq_false, Char.isWhitespace, Bool.or_eq_true,
    decide_eq_true_eq] at hw
  rcases hw with ((h1 | h1) | h1) | h1 <;> subst h1 <;> exact absurd h (by decide)

theorem isAlpha_not_num {c : Char} (h : c.isAlpha = true) :
    Utils.isNumChar c = false := by
  simp only [Char.isAlpha, Bool.or_eq_true] at h
  simp only [Utils.isNumChar, Bool.or_eq_false_iff]
  constructor
  · by_contra hd
    simp only [Bool.not_eq_false] at hd
    have hb := char_isDigit_toNat hd
    rcases h with h | h
    · have := char_isUpper_toNat h; omega
    · have := char_isLower_toNat h; omega
  · simp only [decide_eq_false_iff_not]
    rintro rfl
    rcases h with h | h <;> exact absurd h (by decide)

/-! ### Reduction lemmas for `parse_size_to_bytes` -/

theorem list_takeWhile_all {p : Char → Bool} {l : List Char}
    (h : ∀ x ∈ l, p x = true) : l.takeWhile p = l := by
  induction l with
  | nil => rfl
  | cons a t ih =>
    rw [List.takeWhile_cons_of_pos (h a (List.mem_cons_self a t))]
    rw [ih (fun x hx => h x (List.mem_cons_of_mem a hx))]

theorem list_dropWhile_all {p : Char → Bool} {l : List Char}
    (h : ∀ x ∈ l, p x = true) : l.dropWhile p = [] := by
  induction l with
  | nil => rfl
  | cons a t ih =>
    rw [List.dropWhile_cons_of_pos (h a (List.mem_cons_self a t))]
    exact ih (fun x hx => h x (List.mem_cons_of_mem a hx))

theorem list_dropWhile_id {p : Char → Bool} {l : List Char}
    (h : ∀ a t, l = a :: t → p a = false) : l.dropWhile p = l := by
  cases l with
  | nil => rfl
  | cons a t => exact List.dropWhile_cons_of_neg (by simp [h a t rfl])

/-- A nonempty digit string followed by a letter string strips to itself. -/
theorem pyStrip_digits_alpha (ds u : List Char) (hne : ds ≠ [])
    (hd : ds.all Char.isDigit = true) (hu : u.all Char.isAlpha = true) :
    Utils.pyStrip (ds ++ u) = ds ++ u := by
  rw [List.all_eq_true] at hd hu
  have h1 : (ds ++ u).dropWhile Char.isWhitespace = ds ++ u := by
    apply list_dropWhile_id
    intro a t hat
    cases ds with
    | nil => exact absurd rfl hne
    | cons d dt =>
      have hda : d = a := by simpa using congrArg (fun l => l.headD 'x') hat
      subst hda
      exact isDigit_not_ws (hd d (List.mem_cons_self d dt))
  have h2 : ((ds ++ u).reverse).dropWhile Char.isWhitespace = (ds ++ u).reverse := by
    apply list_dropWhile_id
    intro a t hat
    have ha : a ∈ ds ++ u := by
      rw [← List.mem_reverse, hat]
      exact List.mem_cons_self a t
    rcases List.mem_append.mp ha with hm | hm
    · exact isDigit_not_ws (hd a hm)
    · exact isAlpha_not_ws (hu a hm)
  rw [Utils.pyStrip, h1, h2, List.reverse_reverse]

/-- The size regex splits a digits-then-letters string at the boundary. -/
theorem matchSizeRe_digits_alpha (ds u : List Char) (hne : ds ≠ [])
    (hd : ds.all Char.isDigit = true) (hu : u.all Char.isAlpha = true) :
    Utils.matchSizeRe (ds ++ u) = some (ds, u) := by
  rw [List.all_eq_true] at hd hu
  have hnum : ∀ x ∈ ds, Utils.isNumChar x = true := by
    intro x hx
    simp [Utils.isNumChar, hd x hx]
  have hu_num : u.takeWhile Utils.isNumChar = [] := by
    cases u with
    | nil => rfl
    | cons a t =>
      exact List.takeWhile_cons_of_neg
        (by simp [isAlpha_not_num (hu a (List.mem_cons_self a t))])
  have hu_drop : u.dropWhile Utils.isNumChar = u := by
    apply list_dropWhile_id
    intro a t hat
    subst hat
    exact isAlpha_not_num (hu a (List.mem_cons_self a t))
  have hu_ws : u.dropWhile Char.isWhitespace = u := by
    apply list_dropWhile_id
    intro a t hat
    subst hat
    exact isAlpha_not_ws (hu a (List.mem_cons_self a t))
  have htake : (ds ++ u).takeWhile Utils.isNumChar = ds := by
    rw [List.takeWhile_append_of_pos hnum, hu_num, List.append_nil]
  have hdrop : (ds ++ u).dropWhile Utils.isNumChar = u := by
    rw [List.dropWhile_append_of_pos hnum, hu_drop]
  rw [Utils.matchSizeRe]
  simp only [htake, hdrop, hu_ws]
  have hds : ds.isEmpty = false := by
    cases ds with
    | nil => exact absurd rfl hne
    | cons a t => rfl
  simp [hds, List.all_eq_true.mpr hu]

/-- Python `float()` on a pure digit string: the integer value, correctly
rounded to binary64. -/
theorem parseDecimal_digits (ds : List Char) (hne : ds ≠ [])
    (hd : ds.all Char.isDigit = true) :
    Utils.parseDecimal ds = some (Utils.roundDyadic (Utils.digitsVal ds) 1) := by
  have hdm := List.all_eq_true.mp hd
  have h1 : ds.takeWhile (fun c => c != '.') = ds :=
    list_takeWhile_all (fun x hx => isDigit_ne_dot (hdm x hx))
  have h2 : ds.dropWhile (fun c => c != '.') = [] :=
    list_dropWhile_all (fun x hx => isDigit_ne_dot (hdm x hx))
  have hds : ds.isEmpty = false := by
    cases ds with
    | nil => exact absurd rfl hne
    | cons a t => rfl
  rw [Utils.parseDecimal]
  simp only [h1, h2, hds, hd]
  simp

theorem parse_mk_ne_empty {ds u : List Char} (hne : ds ≠ []) :
    (String.mk (ds ++ u)).isEmpty = false := by
  by_contra h
  rw [Bool.not_eq_false, String.isEmpty_iff] at h
  have h2 : ds ++ u = [] := congrArg String.data h
  rcases List.append_eq_nil.mp h2 with ⟨h3, _⟩
  exact hne h3

/-- Common reduction: on `<digits><letters>` the parser reaches the unit
dispatch with the digit string's value correctly rounded to binary64. -/
theorem parse_size_reduce (ds u : List Char) (hne : ds ≠ [])
    (hd : ds.all Char.isDigit = true) (hu : u.all Char.isAlpha = true) :
    Utils.parse_size_to_bytes (some (String.mk (ds ++ u))) =
      (let unit := u.map Char.toUpper
       let number := Utils.roundDyadic (Utils.digitsVal ds) 1
       if unit = [] ∨ unit = "K".toList ∨ unit = "KB".toList then
         Utils.intResult (Utils.pyMulPow2 number 10)
       else if unit = "M".toList ∨ unit = "MB".toList then
         Utils.intResult (Utils.pyMulPow2 number 20)
       else if unit = "G".toList ∨ unit = "GB".toList then
         Utils.intResult (Utils.pyMulPow2 number 30)
       else if unit = "B".toList ∨ unit = "BYTE".toList ∨ unit = "BYTES".toList then
         Utils.intResult number
       else none) := by
  rw [Utils.parse_size_to_bytes]
  simp only [parse_mk_ne_empty hne, Bool.false_eq_true, if_false]
  rw [show (String.mk (ds ++ u)).toList = ds ++ u from rfl,
    pyStrip_digits_alpha ds u hne hd hu,
    matchSizeRe_digits_alpha ds u hne hd hu]
  dsimp only
  rw [parseDecimal_digits ds hne hd]

/-- Specification of the fuelled binary logarithm when the fuel suffices. -/
theorem log2fuel_spec : ∀ (f n : ℕ), 1 ≤ n → n < 2 ^ f →
    2 ^ Utils.log2fuel f n ≤ n ∧ n < 2 ^ (Utils.log2fuel f n + 1) := by
  intro f
  induction f with
  | zero =>
    intro n h1 h2
    simp at h2
    omega
  | succ f ih =>
    intro n h1 h2
    by_cases hn : 2 ≤ n
    · have hhalf1 : 1 ≤ n / 2 := by omega
      have hhalf2 : n / 2 < 2 ^ f := by
        rw [pow_succ] at h2
        omega
      obtain ⟨ihl, ihr⟩ := ih (n / 2) hhalf1 hhalf2
      simp only [Utils.log2fuel, if_pos hn]
      have e1 : 2 ^ (Utils.log2fuel f (n / 2) + 1)
          = 2 ^ Utils.log2fuel f (n / 2) * 2 := pow_succ 2 _
      have e2 : 2 ^ (Utils.log2fuel f (n / 2) + 1 + 1)
          = 2 ^ Utils.log2fuel f (n / 2) * 2 * 2 := by
        rw [pow_succ, pow_succ]
      omega
    · simp only [Utils.log2fuel, if_neg hn]
      simp
      omega

/-- Binary-log bounds for values below `2 ^ 53`. -/
theorem natLog2_bounds (n : ℕ) (h1 : 1 ≤ n) (h2 : n < 2 ^ 53) :
    2 ^ Utils.natLog2 n ≤ n ∧ n < 2 ^ (Utils.natLog2 n + 1) ∧
      Utils.natLog2 n ≤ 52 := by
  have hs : 2 ^ Utils.natLog2 n ≤ n ∧ n < 2 ^ (Utils.natLog2 n + 1) :=
    log2fuel_spec 4200 n h1 (lt_trans h2 (by norm_num))
  refine ⟨hs.1, hs.2, ?_⟩
  by_contra hgt
  push_neg at hgt
  have hp : (2 : ℕ) ^ 53 ≤ 2 ^ Utils.natLog2 n :=
    Nat.pow_le_pow_right (by norm_num) (by omega)
  have := hs.1
  omega

/-- Integers below `2 ^ 53` are exactly representable: `roundDyadic` keeps
their value, normalised to a 53-bit mantissa. -/
theorem roundDyadic_small {n : ℕ} (h1 : 1 ≤ n) (hn : n < 2 ^ 53) :
    Utils.roundDyadic n 1 =
      .finite (n * 2 ^ (52 - Utils.natLog2 n)) ((Utils.natLog2 n : ℤ) - 52) := by
  obtain ⟨hl, hr, h52⟩ := natLog2_bounds n h1 hn
  have hn0 : ¬ (n = 0) := by omega
  have hlog1 : Utils.natLog2 1 = 0 := by decide
  have he : Utils.dlog2 n 1 = (Utils.natLog2 n : ℤ) := by
    simp only [Utils.dlog2, hlog1, Nat.cast_zero, sub_zero]
    have hpos : (0 : ℤ) ≤ (Utils.natLog2 n : ℤ) := Int.natCast_nonneg _
    have hd : Utils.dyLe (Utils.natLog2 n : ℤ) n 1 = true := by
      simp only [Utils.dyLe, if_pos hpos, Int.toNat_natCast, mul_one]
      exact decide_eq_true_eq.mpr hl
    rw [if_pos hd]
  have hmax : max ((Utils.natLog2 n : ℤ) - 52) (-1074 : ℤ)
      = (Utils.natLog2 n : ℤ) - 52 := by omega
  have hbig : n < 2 ^ 1024 := lt_trans hn (by norm_num)
  simp only [Utils.roundDyadic, if_neg hn0, he, hmax]
  by_cases hL : Utils.natLog2 n = 52
  · have hsh : (0 : ℤ) ≤ (Utils.natLog2 n : ℤ) - 52 := by omega
    have ht0 : ((Utils.natLog2 n : ℤ) - 52).toNat = 0 := by omega
    have hm0 : 52 - Utils.natLog2 n = 0 := by omega
    have hguard : ¬ ((2 : ℕ) ^ 1024 ≤ n) := by omega
    simp only [if_pos hsh, ht0, hm0, pow_zero, mul_one, one_mul, Nat.div_one,
      Nat.mod_one, Nat.mul_zero, Nat.zero_lt_one, if_true]
    simp [hguard]
  · have hneg : ¬ ((0 : ℤ) ≤ (Utils.natLog2 n : ℤ) - 52) := by omega
    have ht : (-((Utils.natLog2 n : ℤ) - 52)).toNat = 52 - Utils.natLog2 n := by
      omega
    simp only [if_neg hneg, ht, Nat.div_one, Nat.mod_one, Nat.mul_zero,
      Nat.zero_lt_one, if_true]
    simp [hneg]

theorem pyMulPow2_finite {m : ℕ} {exp : ℤ} {k : ℕ}
    (h : ¬ ((0 : ℤ) ≤ exp + k ∧ 2 ^ 1024 ≤ m * 2 ^ (exp + k).toNat)) :
    Utils.pyMulPow2 (.finite m exp) k = .finite m (exp + k) := by
  simp only [Utils.pyMulPow2]
  rw [if_neg]
  simp only [Bool.and_eq_true, decide_eq_true_eq]
  exact h

theorem pyToInt_nonneg {m : ℕ} {exp : ℤ} (h : (0 : ℤ) ≤ exp) :
    Utils.pyToInt (.finite m exp) = some ((m * 2 ^ exp.toNat : ℕ) : ℤ) := by
  simp only [Utils.pyToInt, if_pos h]

theorem pyToInt_neg {m : ℕ} {exp : ℤ} (h : ¬ ((0 : ℤ) ≤ exp)) :
    Utils.pyToInt (.finite m exp) = some ((m / 2 ^ (-exp).toNat : ℕ) : ℤ) := by
  simp only [Utils.pyToInt, if_neg h]

/-- Multiplying a small integer's float by a power-of-two unit constant and
truncating recovers the exact product — binary64 is exact here. -/
theorem parse_mul_small (n k : ℕ) (hn : n < 2 ^ 53) (hk : k ≤ 30) :
    Utils.intResult (Utils.pyMulPow2 (Utils.roundDyadic n 1) k)
      = some (some ((n : ℤ) * 2 ^ k)) := by
  by_cases h0 : n = 0
  · subst h0
    have hz : Utils.roundDyadic 0 1 = .finite 0 0 := by
      simp [Utils.roundDyadic]
    rw [hz]
    simp [Utils.pyMulPow2, Utils.intResult, Utils.pyToInt]
  · have h1 : 1 ≤ n := by omega
    obtain ⟨hl, hr, h52⟩ := natLog2_bounds n h1 hn
    rw [roundDyadic_small h1 hn]
    have hbound : n * 2 ^ k < 2 ^ 1024 := by
      calc n * 2 ^ k ≤ n * 2 ^ 30 :=
            Nat.mul_le_mul_left n (Nat.pow_le_pow_right (by norm_num) hk)
        _ < 2 ^ 53 * 2 ^ 30 := by
            exact Nat.mul_lt_mul_of_lt_of_le hn (le_refl _) (by positivity)
        _ < 2 ^ 1024 := by norm_num
    have hcast : ((n * 2 ^ k : ℕ) : ℤ) = (n : ℤ) * 2 ^ k := by push_cast; ring
    by_cases hc : (0 : ℤ) ≤ (Utils.natLog2 n : ℤ) - 52 + k
    · have ht : (((Utils.natLog2 n : ℤ) - 52) + k).toNat
          = k - (52 - Utils.natLog2 n) := by omega
      have hval : n * 2 ^ (52 - Utils.natLog2 n) * 2 ^ (k - (52 - Utils.natLog2 n))
          = n * 2 ^ k := by
        rw [mul_assoc, ← pow_add]
        congr 1
        congr 1
        omega
      rw [pyMulPow2_finite (by rw [ht, hval]; omega)]
      rw [Utils.intResult, pyToInt_nonneg hc, ht, hval, hcast]
    · have ht2 : (-(((Utils.natLog2 n : ℤ) - 52) + k)).toNat
          = 52 - Utils.natLog2 n - k := by omega
      have hsplit : n * 2 ^ (52 - Utils.natLog2 n)
          = (n * 2 ^ k) * 2 ^ (52 - Utils.natLog2 n - k) := by
        rw [mul_assoc, ← pow_add]
        congr 1
        congr 1
        omega
      have hdiv : n * 2 ^ (52 - Utils.natLog2 n) / 2 ^ (52 - Utils.natLog2 n - k)
          = n * 2 ^ k := by
        rw [hsplit, Nat.mul_div_cancel _ (by positivity)]
      rw [pyMulPow2_finite (by intro hcon; exact hc hcon.1)]
      rw [Utils.intResult, pyToInt_neg hc, ht2, hdiv, hcast]

/-- Truncating a small integer's float gives the integer back. -/
theorem parse_int_small (n : ℕ) (hn : n < 2 ^ 53) :
    Utils.intResult (Utils.roundDyadic n 1) = some (some (n : ℤ)) := by
  by_cases h0 : n = 0
  · subst h0
    have hz : Utils.roundDyadic 0 1 = .finite 0 0 := by
      simp [Utils.roundDyadic]
    rw [hz]
    simp [Utils.intResult, Utils.pyToInt]
  · have h1 : 1 ≤ n := by omega
    obtain ⟨hl, hr, h52⟩ := natLog2_bounds n h1 hn
    rw [roundDyadic_small h1 hn]
    by_cases hc : (0 : ℤ) ≤ (Utils.natLog2 n : ℤ) - 52
    · have hL : Utils.natLog2 n = 52 := by omega
      have ht : ((Utils.natLog2 n : ℤ) - 52).toNat = 0 := by omega
      rw [Utils.intResult, pyToInt_nonneg hc, ht, hL]
      norm_num
    · have ht : (-((Utils.natLog2 n : ℤ) - 52)).toNat = 52 - Utils.natLog2 n := by
        omega
      have hdiv : n * 2 ^ (52 - Utils.natLog2 n) / 2 ^ (52 - Utils.natLog2 n)
          = n := Nat.mul_div_cancel _ (by positivity)
      rw [Utils.intResult, pyToInt_neg hc, ht, hdiv]

set_option maxRecDepth 100000 in
/-- C10 counterexample: `float()` rounds to 53 significant bits, so the
claim's unbounded universal fails — the bare digit string for `2 ^ 53 + 1`
parses to `int(float("9007199254740993") * 1024) = 2 ^ 63 =
9223372036854775808`, not `(2 ^ 53 + 1) * 1024 = 9223372036854776832`
(`9007199254740993` ties to the even mantissa `2 ^ 53`). -/
theorem claim_C10_counterexample :
    Utils.parse_size_to_bytes (some "9007199254740993")
        = some (some 9223372036854775808) ∧
    Utils.digitsVal "9007199254740993".toList = 9007199254740993 ∧
    (9223372036854775808 : ℤ)
      ≠ (Utils.digitsVal "9007199254740993".toList : ℤ) * 1024 := by
  refine ⟨by decide, by decide, by decide⟩

/-- C10 amended: below `2 ^ 53` — where binary64 is exact — a bare digit
string yields `n * 1024` (the no-unit default is kibibytes), the explicit
units `B`/`BYTE`/`BYTES` yield `n`, `K`/`KB` yield `n * 1024`, `M`/`MB`
yield `n * 1048576` and `G`/`GB` yield `n * 1073741824`, all
case-insensitively (any letter string whose uppercasing matches the unit
behaves identically); a `None` or empty input parses to `None`.  At
`2 ^ 53` and beyond, `float()` rounds and the returned byte count can
differ from `n * unit` (see the counterexample). -/
theorem claim_C10 :
    (∀ ds : List Char, ds ≠ [] → ds.all Char.isDigit = true →
      Utils.digitsVal ds < 2 ^ 53 →
      Utils.parse_size_to_bytes (some (String.mk ds))
        = some (some ((Utils.digitsVal ds : ℤ) * 1024))) ∧
    (∀ ds u : List Char, ds ≠ [] → ds.all Char.isDigit = true →
      u.all Char.isAlpha = true → Utils.digitsVal ds < 2 ^ 53 →
      ((u.map Char.toUpper = "B".toList ∨ u.map Char.toUpper = "BYTE".toList ∨
          u.map Char.toUpper = "BYTES".toList) →
        Utils.parse_size_to_bytes (some (String.mk (ds ++ u)))
          = some (some (Utils.digitsVal ds : ℤ))) ∧
      ((u.map Char.toUpper = "K".toList ∨ u.map Char.toUpper = "KB".toList) →
        Utils.parse_size_to_bytes (some (String.mk (ds ++ u)))
          = some (some ((Utils.digitsVal ds : ℤ) * 1024))) ∧
      ((u.map Char.toUpper = "M".toList ∨ u.map Char.toUpper = "MB".toList) →
        Utils.parse_size_to_bytes (some (String.mk (ds ++ u)))
          = some (some ((Utils.digitsVal ds : ℤ) * 1048576))) ∧
      ((u.map Char.toUpper = "G".toList ∨ u.map Char.toUpper = "GB".toList) →
        Utils.parse_size_to_bytes (some (String.mk (ds ++ u)))
          = some (some ((Utils.digitsVal ds : ℤ) * 1073741824)))) ∧
    Utils.parse_size_to_bytes none = some none ∧
    Utils.parse_size_to_bytes (some "") = some none := by
  refine ⟨?_, ?_, rfl, by decide⟩
  · intro ds hne hd hn
    have h := parse_size_reduce ds [] hne hd rfl
    rw [List.append_nil] at h
    rw [h]
    dsimp only
    simp only [List.map_nil]
    rw [if_pos (Or.inl trivial)]
    rw [parse_mul_small (Utils.digitsVal ds) 10 hn (by norm_num)]
    norm_num
  · intro ds u hne hd hu hn
    have h := parse_size_reduce ds u hne hd hu
    refine ⟨?_, ?_, ?_, ?_⟩
    · intro hU
      rw [h]
      dsimp only
      rcases hU with hU | hU | hU
      · rw [hU]
        rw [if_neg (show ¬("B".toList = ([] : List Char) ∨ "B".toList = "K".toList ∨ "B".toList = "KB".toList) by decide), if_neg (show ¬("B".toList = "M".toList ∨ "B".toList = "MB".toList) by decide), if_neg (show ¬("B".toList = "G".toList ∨ "B".toList = "GB".toList) by decide), if_pos (show ("B".toList = "B".toList ∨ "B".toList = "BYTE".toList ∨ "B".toList = "BYTES".toList) by decide)]
        rw [parse_int_small (Utils.digitsVal ds) hn]
      · rw [hU]
        rw [if_neg (show ¬("BYTE".toList = ([] : List Char) ∨ "BYTE".toList = "K".toList ∨ "BYTE".toList = "KB".toList) by decide), if_neg (show ¬("BYTE".toList = "M".toList ∨ "BYTE".toList = "MB".toList) by decide), if_neg (show ¬("BYTE".toList = "G".toList ∨ "BYTE".toList = "GB".toList) by decide), if_pos (show ("BYTE".toList = "B".toList ∨ "BYTE".toList = "BYTE".toList ∨ "BYTE".toList = "BYTES".toList) by decide)]
        rw [parse_int_small (Utils.digitsVal ds) hn]
      · rw [hU]
        rw [if_neg (show ¬("BYTES".toList = ([] : List Char) ∨ "BYTES".toList = "K".toList ∨ "BYTES".toList = "KB".toList) by decide), if_neg (show ¬("BYTES".toList = "M".toList ∨ "BYTES".toList = "MB".toList) by decide), if_neg (show ¬("BYTES".toList = "G".toList ∨ "BYTES".toList = "GB".toList) by decide), if_pos (show ("BYTES".toList = "B".toList ∨ "BYTES".toList = "BYTE".toList ∨ "BYTES".toList = "BYTES".toList) by decide)]
        rw [parse_int_small (Utils.digitsVal ds) hn]
    · intro hU
      rw [h]
      dsimp only
      rcases hU with hU | hU
      · rw [hU]
        rw [if_pos (show ("K".toList = ([] : List Char) ∨ "K".toList = "K".toList ∨ "K".toList = "KB".toList) by decide)]
        rw [parse_mul_small (Utils.digitsVal ds) 10 hn (by norm_num)]
        norm_num
      · rw [hU]
        rw [if_pos (show ("KB".toList = ([] : List Char) ∨ "KB".toList = "K".toList ∨ "KB".toList = "KB".toList) by decide)]
        rw [parse_mul_small (Utils.digitsVal ds) 10 hn (by norm_num)]
        norm_num
    · intro hU
      rw [h]
      dsimp only
      rcases hU with hU | hU
      · rw [hU]
        rw [if_neg (show ¬("M".toList = ([] : List Char) ∨ "M".toList = "K".toList ∨ "M".toList = "KB".toList) by decide), if_pos (show ("M".toList = "M".toList ∨ "M".toList = "MB".toList) by decide)]
        rw [parse_mul_small (Utils.digitsVal ds) 20 hn (by norm_num)]
        norm_num
      · rw [hU]
        rw [if_neg (show ¬("MB".toList = ([] : List Char) ∨ "MB".toList = "K".toList ∨ "MB".toList = "KB".toList) by decide), if_pos (show ("MB".toList = "M".toList ∨ "MB".toList = "MB".toList) by decide)]
        rw [parse_mul_small (Utils.digitsVal ds) 20 hn (by norm_num)]
        norm_num
    · intro hU
      rw [h]
      dsimp only
      rcases hU with hU | hU
      · rw [hU]
        rw [if_neg (show ¬("G".toList = ([] : List Char) ∨ "G".toList = "K".toList ∨ "G".toList = "KB".toList) by decide), if_neg (show ¬("G".toList = "M".toList ∨ "G".toList = "MB".toList) by decide), if_pos (show ("G".toList = "G".toList ∨ "G".toList = "GB".toList) by decide)]
        rw [parse_mul_small (Utils.digitsVal ds) 30 hn (by norm_num)]
        norm_num
      · rw [hU]
        rw [if_neg (show ¬("GB".toList = ([] : List Char) ∨ "GB".toList = "K".toList ∨ "GB".toList = "KB".toList) by decide), if_neg (show ¬("GB".toList = "M".toList ∨ "GB".toList = "MB".toList) by decide), if_pos (show ("GB".toList = "G".toList ∨ "GB".toList = "GB".toList) by decide)]
        rw [parse_mul_small (Utils.digitsVal ds) 30 hn (by norm_num)]
        norm_num

/-- C10 witness: `"500kb"` parses to `500 * 1024` bytes via the amended
theorem's case-insensitive `KB` clause. -/
theorem claim_C10_witness :
    Utils.parse_size_to_bytes (some (String.mk ("500".toList ++ "kb".toList)))
      = some (some ((Utils.digitsVal "500".toList : ℤ) * 1024)) :=
  (claim_C10.2.1 "500".toList "kb".toList (by decide) (by decide) (by decide)
    (by decide)).2.1 (Or.inr (by decide))
